import Mathlib

/-!
Verification of the CSC453 heap allocator (malloc / free / calloc / realloc).

The allocator keeps a doubly linked, address-ordered list of block headers
threaded through a contiguous arena obtained from the operating system via
sbrk.  We embed the directory as a list of blocks in address order: the
doubly linked structure of the C code is represented by list adjacency
(the C pointer surgery in the split / merge paths exactly implements list
insertion and deletion on this sequence).  Byte memory is a total function
from addresses to byte values; sbrk is modelled by an explicit success flag
and a running break counter.  errno is not modelled: the failure indicator
is the NULL (none) result, as in the spec's interface section.
-/

namespace CSC453

/-- Alignment unit (the ALGN macro). -/
def ALGN : Nat := 16

/-- sizeof(Header) on the LP64 target: size_t (8) + int (4, padded to 8)
    + two pointers (16). -/
def HEADER_SIZE : Nat := 32

/-- The PADDED_HEADER_SIZE macro: `(HEADER_SIZE + (ALGN-1)) & ~(ALGN-1)`.
    For the power-of-two ALGN this mask is rounding up to a multiple of
    ALGN, which is how we write it on Nat. -/
def PADDED_HEADER_SIZE : Nat := (HEADER_SIZE + (ALGN - 1)) / ALGN * ALGN

/-- Short name used throughout, equals 32. -/
def PH : Nat := PADDED_HEADER_SIZE

/-- Maximum value of size_t (64-bit). -/
def SIZE_MAX : Nat := 2 ^ 64 - 1

/-- The request-rounding expression `(size + (ALGN - 1)) & ~(ALGN - 1)`,
    computed in size_t: the addition wraps modulo 2^64 (the subsequent
    mask only clears low bits and cannot wrap). -/
def alignUp (n : Nat) : Nat := (n + (ALGN - 1)) % 2 ^ 64 / ALGN * ALGN

/-- A block header: its arena offset, recorded usable size and free flag.
    The next/prev pointers of the C struct are represented by the position
    of the block in the directory list. -/
structure Block where
  addr : Nat
  size : Nat
  is_free : Bool
deriving Repr, DecidableEq

/-- Payload address of a block: the header address plus the padded header. -/
def Block.payload (b : Block) : Nat := b.addr + PH

/-- The process-wide heap state: the block directory in address order
    (heap_head and the links) and the current program break. -/
structure Heap where
  blocks : List Block
  brk : Nat
deriving Repr, DecidableEq

/-- The uninitialized heap (heap_head == NULL), break taken as offset 0. -/
def Heap.empty : Heap := { blocks := [], brk := 0 }

/-- Byte memory: payload contents of the arena. -/
def Mem : Type := Nat → Nat

/-- memset(dst, val, n). -/
def memset (m : Mem) (dst val n : Nat) : Mem :=
  fun a => if dst ≤ a ∧ a < dst + n then val else m a

/-- memcpy(dst, src, n). -/
def memcpy (m : Mem) (dst src n : Nat) : Mem :=
  fun a => if dst ≤ a ∧ a < dst + n then m (src + (a - dst)) else m a

/-- The initial 64 KiB chunk requested on the first call. -/
def INITIAL_CHUNK : Nat := 64 * 1024

/-- The first-fit search loop of malloc (part_000 lines 97-139, part_001
    lines 70-102): walk the directory; at the first free block whose size
    is at least the aligned request `a`, split it when
    `size >= a + PADDED_HEADER_SIZE + ALGN` (inserting the residual free
    block right after it and shrinking it to exactly `a`), mark it in-use
    and return its payload address.  `none` when no block fits. -/
def allocFit (a : Nat) : List Block → Option (Nat × List Block)
  | [] => none
  | b :: rest =>
    if b.is_free = true ∧ a ≤ b.size then
      if a + PH + ALGN ≤ b.size then
        some (b.addr + PH,
          { addr := b.addr, size := a, is_free := false } ::
          { addr := b.addr + PH + a, size := b.size - a - PH, is_free := true } :: rest)
      else
        some (b.addr + PH, { b with is_free := false } :: rest)
    else
      match allocFit a rest with
      | some (p, rest') => some (p, b :: rest')
      | none => none

/-- The growth size chosen by the first call (part_001 lines 42-49):
    the 64 KiB chunk, or `PADDED_HEADER_SIZE + a + ALGN` when
    `PADDED_HEADER_SIZE + a` exceeds the chunk. -/
def bootRequest (a : Nat) : Nat :=
  if INITIAL_CHUNK < PH + a then PH + a + ALGN else INITIAL_CHUNK

/-- The first-call bootstrap of malloc (part_001 lines 39-67): request
    `bootRequest` bytes from the OS and install the grant as the single
    free block of the directory.  `a` is the already-aligned request;
    `osOk` models whether sbrk succeeds. -/
def bootstrap (osOk : Bool) (a : Nat) (h : Heap) : Option Heap :=
  let request := bootRequest a
  if osOk then
    some { blocks := [{ addr := h.brk, size := request - PH, is_free := true }],
           brk := h.brk + request }
  else none

/-- Search plus arena growth (the part of malloc after bootstrap): first-fit
    scan, and when it fails, request `PADDED_HEADER_SIZE + a + ALGN` bytes
    from the OS and append the new block, in-use, after the current tail. -/
def mallocCore (osOk : Bool) (a : Nat) (h : Heap) : Option Nat × Heap :=
  match allocFit a h.blocks with
  | some (p, bs) => (some p, { h with blocks := bs })
  | none =>
    if osOk then
      (some (h.brk + PH),
       { blocks := h.blocks ++ [{ addr := h.brk, size := a, is_free := false }],
         brk := h.brk + (PH + a + ALGN) })
    else (none, h)

/-- malloc (identical in src/asgn01/malloc.c, part_000 and part_001 up to
    logging): zero-size requests return NULL untouched; otherwise align,
    bootstrap an empty directory, then search / grow. -/
def malloc (osOk : Bool) (size : Nat) (h : Heap) : Option Nat × Heap :=
  if size = 0 then (none, h)
  else if h.blocks = [] then
    match bootstrap osOk (alignUp size) h with
    | none => (none, h)
    | some h1 => mallocCore osOk (alignUp size) h1
  else mallocCore osOk (alignUp size) h

/-- The forward-coalescing loop of free (part_001 lines 149-163): greedily
    absorb the leading free blocks of the tail into `b`, adding
    `PADDED_HEADER_SIZE + size` for each absorbed block. -/
def mergeForward (b : Block) : List Block → Block × List Block
  | [] => (b, [])
  | n :: rest =>
    if n.is_free = true then
      mergeForward { b with size := b.size + PH + n.size } rest
    else (b, n :: rest)

/-- The body of free after header recovery (part_001 lines 137-185): find
    the block whose header address is `hdr`; double frees are no-ops; mark
    it free, run forward coalescing, then merge into the immediate
    predecessor when that one is free.  The scan inspects each block and
    its successor so the predecessor is in hand for the backward merge; a
    foreign address (undefined behavior in C) leaves the directory
    unchanged. -/
def freeAt (hdr : Nat) : List Block → List Block
  | [] => []
  | b :: rest =>
    if b.addr = hdr then
      -- the target is the first block: no predecessor, no backward merge
      if b.is_free = true then b :: rest
      else
        (mergeForward { b with is_free := true } rest).1 ::
          (mergeForward { b with is_free := true } rest).2
    else
      match rest with
      | [] => [b]
      | c :: rest2 =>
        if c.addr = hdr then
          if c.is_free = true then b :: c :: rest2
          else
            if b.is_free = true then
              { b with size := b.size + PH +
                  (mergeForward { c with is_free := true } rest2).1.size } ::
                (mergeForward { c with is_free := true } rest2).2
            else
              b :: (mergeForward { c with is_free := true } rest2).1 ::
                (mergeForward { c with is_free := true } rest2).2
        else b :: freeAt hdr rest

/-- free: NULL is a no-op, otherwise recover the header at
    `ptr - PADDED_HEADER_SIZE` and release it. -/
def free (p : Option Nat) (h : Heap) : Heap :=
  match p with
  | none => h
  | some ptr => { h with blocks := freeAt (ptr - PH) h.blocks }

/-- calloc (part_001 lines 193-213): reject with NULL when count * size
    would overflow size_t, otherwise delegate to malloc with the size_t
    product and zero the first `total` payload bytes on success. -/
def calloc (osOk : Bool) (nmemb size : Nat) (h : Heap) (mem : Mem) :
    Option Nat × Heap × Mem :=
  if 0 < nmemb ∧ 0 < size ∧ SIZE_MAX / size < nmemb then (none, h, mem)
  else
    -- total_size, the size_t product nmemb * size
    match malloc osOk (nmemb * size % (SIZE_MAX + 1)) h with
    | (some p, h') => (some p, h', memset mem p 0 (nmemb * size % (SIZE_MAX + 1)))
    | (none, h') => (none, h', mem)

/-- Locate the block with header address `hdr` together with its successor
    (current and current->next in the realloc code). -/
def findCur (hdr : Nat) : List Block → Option (Block × Option Block)
  | [] => none
  | [b] => if b.addr = hdr then some (b, none) else none
  | b :: c :: rest =>
    if b.addr = hdr then some (b, some c) else findCur hdr (c :: rest)

/-- realloc Case 1 (shrink or exact fit, identical in part_000 lines
    307-338 and part_001 lines 234-254): when the leftover beyond the
    aligned size admits a header plus one alignment unit, split it off as
    a new free block right after the current one. -/
def shrinkAt (hdr a : Nat) : List Block → List Block
  | [] => []
  | b :: rest =>
    if b.addr = hdr then
      if a + PH + ALGN ≤ b.size then
        { b with size := a } ::
        { addr := b.addr + PH + a, size := b.size - a - PH, is_free := true } :: rest
      else b :: rest
    else b :: shrinkAt hdr a rest

/-- realloc Case 2 as written in part_001 (lines 256-279): merge the free
    successor in, then set the size to the aligned request without ever
    splitting (the split is left as a comment in that source). -/
def mergeNextNoSplit (hdr a : Nat) : List Block → List Block
  | [] => []
  | [b] => [b]
  | b :: c :: rest =>
    if b.addr = hdr then { b with size := a } :: rest
    else b :: mergeNextNoSplit hdr a (c :: rest)

/-- realloc Case 2 as written in part_000 (lines 340-384): merge the free
    successor in, split the excess off as a new free block when it is at
    least a padded header plus one alignment unit, and set the size to the
    aligned request. -/
def mergeNextSplit (hdr a : Nat) : List Block → List Block
  | [] => []
  | [b] => [b]
  | b :: c :: rest =>
    -- msize, the merged size b.size + PADDED_HEADER_SIZE + c.size
    if b.addr = hdr then
      if a + PH + ALGN ≤ b.size + PH + c.size then
        { b with size := a } ::
        { addr := b.addr + PH + a, size := b.size + PH + c.size - a - PH,
          is_free := true } :: rest
      else { b with size := a } :: rest
    else b :: mergeNextSplit hdr a (c :: rest)

/-- realloc Case 3 (relocation, identical in both sources): malloc a fresh
    block; on failure return NULL leaving everything untouched; on success
    copy min(old size, aligned size) bytes and free the old block. -/
def reallocRelocate (osOk : Bool) (ptr size a : Nat) (cur : Block) (h : Heap)
    (mem : Mem) : Option Nat × Heap × Mem :=
  match malloc osOk size h with
  | (none, h') => (none, h', mem)
  | (some np, h') =>
    let cs := if cur.size < a then cur.size else a
    (some np, free (some ptr) h', memcpy mem np ptr cs)

/-- realloc of src/unnamed/part_001 (lines 216-300). -/
def realloc001 (osOk : Bool) (p : Option Nat) (size : Nat) (h : Heap)
    (mem : Mem) : Option Nat × Heap × Mem :=
  match p with
  | none =>
    let r := malloc osOk size h
    (r.1, r.2, mem)
  | some ptr =>
    if size = 0 then (none, free (some ptr) h, mem)
    else
      match findCur (ptr - PH) h.blocks with
      | none => (none, h, mem)
      | some (cur, nxtOpt) =>
        if alignUp size ≤ cur.size then
          (some ptr,
           { h with blocks := shrinkAt (ptr - PH) (alignUp size) h.blocks }, mem)
        else
          match nxtOpt with
          | some nxt =>
            if nxt.is_free = true ∧ alignUp size ≤ cur.size + PH + nxt.size then
              (some ptr,
               { h with blocks := mergeNextNoSplit (ptr - PH) (alignUp size) h.blocks },
               mem)
            else reallocRelocate osOk ptr size (alignUp size) cur h mem
          | none => reallocRelocate osOk ptr size (alignUp size) cur h mem

/-- realloc of src/unnamed/part_000 (lines 286-414), identical to
    `realloc001` except that the in-place-expansion path splits off the
    merged excess (logging is modelled separately). -/
def realloc000 (osOk : Bool) (p : Option Nat) (size : Nat) (h : Heap)
    (mem : Mem) : Option Nat × Heap × Mem :=
  match p with
  | none =>
    let r := malloc osOk size h
    (r.1, r.2, mem)
  | some ptr =>
    if size = 0 then (none, free (some ptr) h, mem)
    else
      match findCur (ptr - PH) h.blocks with
      | none => (none, h, mem)
      | some (cur, nxtOpt) =>
        if alignUp size ≤ cur.size then
          (some ptr,
           { h with blocks := shrinkAt (ptr - PH) (alignUp size) h.blocks }, mem)
        else
          match nxtOpt with
          | some nxt =>
            if nxt.is_free = true ∧ alignUp size ≤ cur.size + PH + nxt.size then
              (some ptr,
               { h with blocks := mergeNextSplit (ptr - PH) (alignUp size) h.blocks },
               mem)
            else reallocRelocate osOk ptr size (alignUp size) cur h mem
          | none => reallocRelocate osOk ptr size (alignUp size) cur h mem

/-- The one control path on which the two realloc implementations differ:
    in-place expansion (block too small, free successor, merged size
    sufficient) where the merged excess is big enough to split off. -/
def expandSplitPath (p : Option Nat) (size : Nat) (h : Heap) : Bool :=
  match p with
  | none => false
  | some ptr =>
    if size = 0 then false
    else
      match findCur (ptr - PH) h.blocks with
      | some (cur, some nxt) =>
        decide (cur.size < alignUp size) && nxt.is_free &&
        decide (alignUp size ≤ cur.size + PH + nxt.size) &&
        decide (alignUp size + PH + ALGN ≤ cur.size + PH + nxt.size)
      | _ => false

/-- check_debug_mode of part_000 (lines 16-26): the static `debug_mode`
    cell starts at -1 (modelled as `none`); the first call reads the
    DEBUG_MALLOC environment variable (`env`) and caches the answer, later
    calls return the cached value.  Returns the flag and the new cache. -/
def check_debug_mode (env : Bool) (cache : Option Bool) : Bool × Option Bool :=
  match cache with
  | some v => (v, some v)
  | none => (env, some env)

/-- The trace guard as actually written in part_000's operations (lines
    132, 168, 182, 274, 333, 378, 409): `if(check_debug_mode)` — the
    function designator without a call.  In C the function decays to its
    address, which is never null, so the condition is constantly true. -/
def traceGuard : Bool := true

/-- Whether part_000's malloc emits its trace line, as a function of the
    environment variable and the cached flag: the guard never consults
    either. -/
def mallocTraceEmitted (env : Bool) (cache : Option Bool) : Bool :=
  traceGuard

/-- No two adjacent free blocks (spec invariant 2), over the directory in
    address order. -/
def noAdjFree : List Block → Bool
  | [] => true
  | [_] => true
  | b :: c :: rest => (!(b.is_free && c.is_free)) && noAdjFree (c :: rest)

/-- Free flag of the first block, false for the empty directory. -/
def headFree : List Block → Bool
  | [] => false
  | b :: _ => b.is_free

/-- Number of free blocks in the directory. -/
def countFree (l : List Block) : Nat := (l.filter (fun b => b.is_free)).length

/-- The public operations of claim C1's sequences (resize excluded, see
    the C1 development below). -/
inductive Op where
  | alloc (osOk : Bool) (size : Nat)
  | release (p : Option Nat)
  | zalloc (osOk : Bool) (nmemb size : Nat)

/-- Heap effect of one public operation. -/
def step (o : Op) (h : Heap) : Heap :=
  match o with
  | .alloc osOk s => (malloc osOk s h).2
  | .release p => free p h
  | .zalloc osOk n s => (calloc osOk n s h (fun _ => 0)).2.1

/-- Run a sequence of public operations. -/
def run (ops : List Op) (h : Heap) : Heap :=
  match ops with
  | [] => h
  | o :: rest => run rest (step o h)

/-! ## Basic lemmas -/

theorem mallocCore_of_allocFit {a : Nat} {h : Heap} {p : Nat} {bs' : List Block}
    (osOk : Bool) (hf : allocFit a h.blocks = some (p, bs')) :
    mallocCore osOk a h = (some p, { h with blocks := bs' }) := by
  simp [mallocCore, hf]

theorem mallocCore_brk_of_fit {a : Nat} {h : Heap} (osOk : Bool)
    (hf : (allocFit a h.blocks).isSome = true) :
    (mallocCore osOk a h).2.brk = h.brk := by
  rcases heq : allocFit a h.blocks with _ | ⟨p, bs'⟩
  · rw [heq] at hf; simp at hf
  · simp [mallocCore, heq]

theorem allocFit_singleton_isSome {a : Nat} {b : Block}
    (hfree : b.is_free = true) (hle : a ≤ b.size) :
    (allocFit a [b]).isSome = true := by
  unfold allocFit
  rw [if_pos ⟨hfree, hle⟩]
  split <;> simp

theorem mallocCore_true_isSome (a : Nat) (h : Heap) :
    (mallocCore true a h).1.isSome = true := by
  unfold mallocCore
  rcases hf : allocFit a h.blocks with _ | ⟨p, bs'⟩ <;> simp

/-- A failing malloc leaves the heap untouched: the only failure points
    are the two sbrk calls, and each returns before mutating anything. -/
theorem malloc_fail_frame (osOk : Bool) (s : Nat) (h : Heap)
    (hfail : (malloc osOk s h).1 = none) : (malloc osOk s h).2 = h := by
  unfold malloc at hfail ⊢
  by_cases hs : s = 0
  · rw [if_pos hs]
  rw [if_neg hs] at hfail ⊢
  by_cases hb : h.blocks = []
  · rw [if_pos hb] at hfail ⊢
    cases hos : osOk with
    | false => simp [bootstrap]
    | true =>
      rw [hos] at hfail
      have hsome := mallocCore_true_isSome (alignUp s)
        { blocks := [{ addr := h.brk, size := bootRequest (alignUp s) - PH,
                       is_free := true }],
          brk := h.brk + bootRequest (alignUp s) }
      simp only [bootstrap, if_true] at hfail
      rw [hfail] at hsome
      simp at hsome
  · rw [if_neg hb] at hfail ⊢
    unfold mallocCore at hfail ⊢
    rcases hf : allocFit (alignUp s) h.blocks with _ | ⟨p, bs'⟩
    · rw [hf] at hfail
      cases hos : osOk with
      | false => simp
      | true => rw [hos] at hfail; simp at hfail
    · rw [hf] at hfail; simp at hfail

/-- The first-fit scan: when no block of `pre` is free and large enough
    and `sel` is, the scan selects `sel`, splitting it exactly when
    `a + PADDED_HEADER_SIZE + ALGN ≤ sel.size`. -/
theorem allocFit_first (a : Nat) (pre post : List Block) (sel : Block)
    (hpre : ∀ x ∈ pre, ¬(x.is_free = true ∧ a ≤ x.size))
    (hfree : sel.is_free = true) (hle : a ≤ sel.size) :
    allocFit a (pre ++ sel :: post) =
      some (sel.addr + PH,
        pre ++
          (if a + PH + ALGN ≤ sel.size then
            [{ addr := sel.addr, size := a, is_free := false },
             { addr := sel.addr + PH + a, size := sel.size - a - PH,
               is_free := true }]
          else [{ sel with is_free := false }]) ++ post) := by
  induction pre with
  | nil =>
    simp only [List.nil_append, allocFit,
      if_pos (⟨hfree, hle⟩ : sel.is_free = true ∧ a ≤ sel.size)]
    split <;> rfl
  | cons x pre ih =>
    have hx := hpre x (List.mem_cons_self x pre)
    have ih' := ih (fun y hy => hpre y (List.mem_cons_of_mem x hy))
    simp only [List.cons_append, allocFit, if_neg hx, List.append_eq]
    rw [ih']

/-! ## C2: first-fit selection and splitting -/

/-- C2: for a non-zero request whose aligned size is `alignUp s`, malloc
    selects the first block in head-to-tail order that is free and large
    enough; it splits exactly when the block can also host a padded header
    plus one alignment unit beyond the aligned request, in which case the
    residual free block is spliced in immediately after and the selected
    block's size becomes exactly the aligned request; otherwise the block
    is handed out whole.  The arena is not grown. -/
theorem c2_first_fit (osOk : Bool) (s : Nat) (h : Heap)
    (pre post : List Block) (sel : Block)
    (hs : s ≠ 0)
    (hbs : h.blocks = pre ++ sel :: post)
    (hpre : ∀ x ∈ pre, ¬(x.is_free = true ∧ alignUp s ≤ x.size))
    (hfree : sel.is_free = true) (hle : alignUp s ≤ sel.size) :
    malloc osOk s h =
      (some (sel.addr + PH),
       { h with blocks := pre ++
           (if alignUp s + PH + ALGN ≤ sel.size then
             [{ addr := sel.addr, size := alignUp s, is_free := false },
              { addr := sel.addr + PH + alignUp s,
                size := sel.size - alignUp s - PH, is_free := true }]
           else [{ sel with is_free := false }]) ++ post }) := by
  have hne : h.blocks ≠ [] := by simp [hbs]
  unfold malloc
  rw [if_neg hs, if_neg hne]
  exact mallocCore_of_allocFit osOk
    (by rw [hbs]; exact allocFit_first (alignUp s) pre post sel hpre hfree hle)

/-- Witness for C2: requesting 16 bytes with an in-use 16-byte block ahead
    of a free 64-byte block selects and splits the latter. -/
theorem c2_witness :
    ((16 : Nat) ≠ 0 ∧
     ({ blocks := [{ addr := 0, size := 16, is_free := false },
                   { addr := 48, size := 64, is_free := true }],
        brk := 65536 } : Heap).blocks =
       [{ addr := 0, size := 16, is_free := false }] ++
         { addr := 48, size := 64, is_free := true } :: [] ∧
     (∀ x ∈ [({ addr := 0, size := 16, is_free := false } : Block)],
        ¬(x.is_free = true ∧ alignUp 16 ≤ x.size)) ∧
     Block.is_free { addr := 48, size := 64, is_free := true } = true ∧
     alignUp 16 ≤ Block.size { addr := 48, size := 64, is_free := true }) ∧
    malloc true 16
        { blocks := [{ addr := 0, size := 16, is_free := false },
                     { addr := 48, size := 64, is_free := true }],
          brk := 65536 } =
      (some 80,
       { blocks := [{ addr := 0, size := 16, is_free := false },
                    { addr := 48, size := 16, is_free := false },
                    { addr := 96, size := 16, is_free := true }],
         brk := 65536 }) :=
  ⟨⟨by decide, by decide, by decide, by decide, by decide⟩, by
    have h := c2_first_fit true 16
      { blocks := [{ addr := 0, size := 16, is_free := false },
                   { addr := 48, size := 64, is_free := true }],
        brk := 65536 }
      [{ addr := 0, size := 16, is_free := false }] []
      { addr := 48, size := 64, is_free := true }
      (by decide) (by decide) (by decide) (by decide) (by decide)
    rw [h]; decide⟩

/-! ## C6: zero-allocate -/

/-- C6: calloc rejects exactly the overflowing products (count, size both
    positive with count > SIZE_MAX / size), leaving the state untouched;
    otherwise the size_t product does not overflow and the call delegates
    to malloc with it, propagating failure unchanged, and on success every
    byte of the returned count*size payload region reads back as zero; in
    particular calloc(SIZE_MAX, 2) fails with the state untouched. -/
theorem c6_calloc (osOk : Bool) (n s : Nat) (h : Heap) (mem : Mem) :
    (0 < n ∧ 0 < s ∧ SIZE_MAX / s < n →
      calloc osOk n s h mem = (none, h, mem)) ∧
    (¬(0 < n ∧ 0 < s ∧ SIZE_MAX / s < n) →
      n * s ≤ SIZE_MAX ∧
      calloc osOk n s h mem =
        (match malloc osOk (n * s) h with
         | (some p, h') => (some p, h', memset mem p 0 (n * s))
         | (none, h') => (none, h', mem)) ∧
      (∀ p h', malloc osOk (n * s) h = (some p, h') →
        ∀ i, i < n * s → (calloc osOk n s h mem).2.2 (p + i) = 0)) ∧
    calloc osOk SIZE_MAX 2 h mem = (none, h, mem) := by
  refine ⟨fun hov => ?_, fun hnov => ?_, ?_⟩
  · unfold calloc
    rw [if_pos hov]
  · have hbound : n * s ≤ SIZE_MAX := by
      rcases Nat.eq_zero_or_pos n with hn | hn
      · simp [hn]
      rcases Nat.eq_zero_or_pos s with hsz | hsz
      · simp [hsz]
      have hle : n ≤ SIZE_MAX / s := by
        by_contra hgt
        exact hnov ⟨hn, hsz, Nat.lt_of_not_le hgt⟩
      calc n * s ≤ SIZE_MAX / s * s := Nat.mul_le_mul_right s hle
        _ ≤ SIZE_MAX := Nat.div_mul_le_self SIZE_MAX s
    have htot : n * s % (SIZE_MAX + 1) = n * s :=
      Nat.mod_eq_of_lt (Nat.lt_succ_of_le hbound)
    have hcal : calloc osOk n s h mem =
        (match malloc osOk (n * s) h with
         | (some p, h') => (some p, h', memset mem p 0 (n * s))
         | (none, h') => (none, h', mem)) := by
      unfold calloc
      rw [if_neg hnov, htot]
    refine ⟨hbound, hcal, fun p h' hmal i hi => ?_⟩
    rw [hcal, hmal]
    simp only [memset]
    rw [if_pos ⟨Nat.le_add_right p i, by omega⟩]
  · unfold calloc
    rw [if_pos (by decide)]

/-- Witness for C6 at count 3, size 5 on the empty heap: the product 15
    does not overflow, the call delegates, and the 15 returned bytes are
    zero. -/
theorem c6_witness :
    ((0 < 3 ∧ 0 < 5 ∧ SIZE_MAX / 5 < 3 →
       calloc true 3 5 Heap.empty (fun _ => 1) = (none, Heap.empty, fun _ => 1)) ∧
     (¬(0 < 3 ∧ 0 < 5 ∧ SIZE_MAX / 5 < 3) →
       3 * 5 ≤ SIZE_MAX ∧
       calloc true 3 5 Heap.empty (fun _ => 1) =
         (match malloc true (3 * 5) Heap.empty with
          | (some p, h') => (some p, h', memset (fun _ => 1) p 0 (3 * 5))
          | (none, h') => (none, h', fun _ => 1)) ∧
       (∀ p h', malloc true (3 * 5) Heap.empty = (some p, h') →
         ∀ i, i < 3 * 5 →
           (calloc true 3 5 Heap.empty (fun _ => 1)).2.2 (p + i) = 0)) ∧
     calloc true SIZE_MAX 2 Heap.empty (fun _ => 1) =
       (none, Heap.empty, fun _ => 1)) ∧
    (calloc true 3 5 Heap.empty (fun _ => 1)).2.2 (32 + 3) = 0 :=
  ⟨c6_calloc true 3 5 Heap.empty (fun _ => 1),
   (c6_calloc true 3 5 Heap.empty (fun _ => 1)).2.1 (by decide) |>.2.2
     32 (malloc true 15 Heap.empty).2 (by decide) 3 (by decide)⟩

/-! ## C5: the relocation path of resize -/

/-- C5: on the relocation path of resize (block too small, no usable free
    successor), a failed replacement allocation makes resize return the
    failure indicator with the heap and memory exactly as before (in
    particular the original block's header and payload are untouched);
    a successful one makes it return the new pointer after copying
    min(old usable size, aligned new size) bytes from the old payload and
    releasing the old block. -/
theorem c5_relocation (osOk : Bool) (ptr s : Nat) (h : Heap) (mem : Mem)
    (cur : Block) (nxtOpt : Option Block)
    (hs : s ≠ 0)
    (hfind : findCur (ptr - PH) h.blocks = some (cur, nxtOpt))
    (hsmall : cur.size < alignUp s)
    (hnoexp : match nxtOpt with
      | some nxt => ¬(nxt.is_free = true ∧ alignUp s ≤ cur.size + PH + nxt.size)
      | none => True) :
    ((malloc osOk s h).1 = none →
      realloc001 osOk (some ptr) s h mem = (none, h, mem)) ∧
    (∀ np h', malloc osOk s h = (some np, h') →
      realloc001 osOk (some ptr) s h mem =
        (some np, free (some ptr) h',
         memcpy mem np ptr (min cur.size (alignUp s)))) := by
  have hred : realloc001 osOk (some ptr) s h mem =
      reallocRelocate osOk ptr s (alignUp s) cur h mem := by
    simp only [realloc001]
    rw [if_neg hs]
    simp only [hfind]
    rw [if_neg (Nat.not_le.mpr hsmall)]
    cases nxtOpt with
    | none => rfl
    | some nxt =>
      simp only at hnoexp ⊢
      rw [if_neg hnoexp]
  constructor
  · intro hfail
    have hframe := malloc_fail_frame osOk s h hfail
    rw [hred]
    unfold reallocRelocate
    rcases hm : malloc osOk s h with ⟨r, h2⟩
    rw [hm] at hfail hframe
    simp only at hfail hframe
    rw [hfail, hframe]
  · intro np h' hm
    rw [hred]
    unfold reallocRelocate
    rw [hm, if_pos hsmall, Nat.min_eq_left (Nat.le_of_lt hsmall)]

/-- Witness for C5 at a single in-use 16-byte block resized to 100 bytes:
    with the OS refusing, resize fails leaving the state unchanged; with
    the OS granting, it returns the new payload at 65568 after copying the
    16 old bytes and freeing the old block. -/
theorem c5_witness :
    ((100 : Nat) ≠ 0 ∧
     findCur (32 - PH)
         ({ blocks := [{ addr := 0, size := 16, is_free := false }],
            brk := 65536 } : Heap).blocks =
       some ({ addr := 0, size := 16, is_free := false }, none) ∧
     Block.size { addr := 0, size := 16, is_free := false } < alignUp 100) ∧
    ((malloc false 100
        { blocks := [{ addr := 0, size := 16, is_free := false }],
          brk := 65536 }).1 = none →
      realloc001 false (some 32) 100
          { blocks := [{ addr := 0, size := 16, is_free := false }],
            brk := 65536 } (fun _ => 7) =
        (none, { blocks := [{ addr := 0, size := 16, is_free := false }],
                 brk := 65536 }, fun _ => 7)) ∧
    (∀ np h', malloc false 100
        { blocks := [{ addr := 0, size := 16, is_free := false }],
          brk := 65536 } = (some np, h') →
      realloc001 false (some 32) 100
          { blocks := [{ addr := 0, size := 16, is_free := false }],
            brk := 65536 } (fun _ => 7) =
        (some np, free (some 32) h',
         memcpy (fun _ => 7) np 32
           (min (Block.size { addr := 0, size := 16, is_free := false })
             (alignUp 100)))) :=
  ⟨⟨by decide, by decide, by decide⟩,
   c5_relocation false 32 100
     { blocks := [{ addr := 0, size := 16, is_free := false }], brk := 65536 }
     (fun _ => 7) { addr := 0, size := 16, is_free := false } none
     (by decide) (by decide) (by decide) trivial⟩

/-! ## C8: allocate(0) -/

/-- C8: allocate(0) returns the null indicator and leaves the heap (block
    directory and arena extent) exactly as it was; no error is signalled
    (the failure indicator is not involved, the call simply returns the
    "no allocation" answer). -/
theorem c8_malloc_zero (osOk : Bool) (h : Heap) : malloc osOk 0 h = (none, h) := rfl

/-! ## C7: resize(null, s) and resize(p, 0) -/

theorem mergeForward_grow (l : List Block) (b : Block) :
    b.size ≤ (mergeForward b l).1.size ∧
    (mergeForward b l).1.is_free = b.is_free := by
  induction l generalizing b with
  | nil => exact ⟨Nat.le_refl _, rfl⟩
  | cons n rest ih =>
    by_cases hn : n.is_free = true
    · obtain ⟨h1, h2⟩ := ih { b with size := b.size + PH + n.size }
      simp only at h1 h2
      simp only [mergeForward, if_pos hn]
      exact ⟨by omega, h2⟩
    · refine ⟨?_, ?_⟩ <;> simp [mergeForward, hn]

/-- Step equation: releasing the in-use head of the directory marks it
    free and runs forward coalescing (no predecessor to merge into). -/
theorem freeAt_head_inuse (b : Block) (l : List Block)
    (hb : b.is_free = false) :
    freeAt b.addr (b :: l) =
      (mergeForward { b with is_free := true } l).1 ::
        (mergeForward { b with is_free := true } l).2 := by
  unfold freeAt
  rw [if_pos rfl, if_neg (by rw [hb]; exact Bool.false_ne_true)]

/-- Step equation: releasing the in-use second block `c` merges it forward
    and then backward into `x` when `x` is free. -/
theorem freeAt_snd_inuse (x c : Block) (l : List Block)
    (hx : x.addr ≠ c.addr) (hc : c.is_free = false) :
    freeAt c.addr (x :: c :: l) =
      if x.is_free = true then
        { x with size := x.size + PH +
            (mergeForward { c with is_free := true } l).1.size } ::
          (mergeForward { c with is_free := true } l).2
      else
        x :: (mergeForward { c with is_free := true } l).1 ::
          (mergeForward { c with is_free := true } l).2 := by
  unfold freeAt
  rw [if_neg hx]
  show (if c.addr = c.addr then _ else _) = _
  rw [if_pos rfl, if_neg (by rw [hc]; exact Bool.false_ne_true)]

/-- Step equation: releasing the free second block is a no-op. -/
theorem freeAt_snd_free (x c : Block) (l : List Block)
    (hx : x.addr ≠ c.addr) (hc : c.is_free = true) :
    freeAt c.addr (x :: c :: l) = x :: c :: l := by
  unfold freeAt
  rw [if_neg hx]
  show (if c.addr = c.addr then _ else _) = _
  rw [if_pos rfl, if_pos hc]

/-- Step equation: the scan walks past a block that neither is the target
    nor directly precedes it. -/
theorem freeAt_cons_skip (hdr : Nat) (x c : Block) (l : List Block)
    (hx : x.addr ≠ hdr) (hc : c.addr ≠ hdr) :
    freeAt hdr (x :: c :: l) = x :: freeAt hdr (c :: l) := by
  conv_lhs => unfold freeAt
  rw [if_neg hx]
  show (if c.addr = hdr then _ else _) = _
  rw [if_neg hc]

/-- Step equation: the last block, not the target, is kept. -/
theorem freeAt_single_skip (hdr : Nat) (x : Block) (hx : x.addr ≠ hdr) :
    freeAt hdr [x] = [x] := by
  unfold freeAt
  rw [if_neg hx]

/-- Releasing the in-use block whose header sits at `b.addr` leaves a free
    block at least as large as it in the directory (coalescing can only
    grow it). -/
theorem freeAt_free_block (pre post : List Block) (b : Block)
    (hpre : ∀ x ∈ pre, x.addr ≠ b.addr) (hb : b.is_free = false) :
    ∃ b' ∈ freeAt b.addr (pre ++ b :: post),
      b'.is_free = true ∧ b.size ≤ b'.size := by
  induction pre with
  | nil =>
    rw [List.nil_append, freeAt_head_inuse b post hb]
    obtain ⟨h1, h2⟩ := mergeForward_grow post { b with is_free := true }
    simp only at h1 h2
    exact ⟨(mergeForward { b with is_free := true } post).1,
      List.mem_cons_self _ _, h2, h1⟩
  | cons x pre ih =>
    have hx : x.addr ≠ b.addr := hpre x (List.mem_cons_self x pre)
    cases hp : pre with
    | nil =>
      subst hp
      rw [List.cons_append, List.nil_append,
        freeAt_snd_inuse x b post hx hb]
      obtain ⟨h1, h2⟩ := mergeForward_grow post { b with is_free := true }
      simp only at h1 h2
      by_cases hxf : x.is_free = true
      · rw [if_pos hxf]
        refine ⟨{ x with size := x.size + PH +
            (mergeForward { b with is_free := true } post).1.size },
          List.mem_cons_self _ _, hxf, ?_⟩
        simp only
        omega
      · rw [if_neg hxf]
        exact ⟨(mergeForward { b with is_free := true } post).1,
          List.mem_cons_of_mem x (List.mem_cons_self _ _), h2, h1⟩
    | cons y pre2 =>
      subst hp
      have hy : y.addr ≠ b.addr :=
        hpre y (List.mem_cons_of_mem x (List.mem_cons_self y pre2))
      rw [List.cons_append, List.cons_append,
        freeAt_cons_skip b.addr x y (pre2 ++ b :: post) hx hy,
        ← List.cons_append]
      obtain ⟨b', hmem, hprops⟩ :=
        ih (fun z hz => hpre z (List.mem_cons_of_mem x hz))
      exact ⟨b', List.mem_cons_of_mem x hmem, hprops⟩

theorem allocFit_isSome_of_exists (a : Nat) (bs : List Block)
    (hex : ∃ b ∈ bs, b.is_free = true ∧ a ≤ b.size) :
    (allocFit a bs).isSome = true := by
  induction bs with
  | nil => simp at hex
  | cons b rest ih =>
    by_cases hc : b.is_free = true ∧ a ≤ b.size
    · unfold allocFit
      rw [if_pos hc]
      split <;> simp
    · obtain ⟨b', hmem, hprops⟩ := hex
      rcases List.mem_cons.mp hmem with rfl | hmem'
      · exact absurd hprops hc
      · have := ih ⟨b', hmem', hprops⟩
        unfold allocFit
        rw [if_neg hc]
        rcases hfit : allocFit a rest with _ | ⟨p, rest'⟩
        · rw [hfit] at this; simp at this
        · simp

/-- When a fitting free block exists, malloc succeeds from the directory
    without growing the arena. -/
theorem malloc_reuse (osOk : Bool) (s : Nat) (h : Heap) (hs : s ≠ 0)
    (hex : ∃ b ∈ h.blocks, b.is_free = true ∧ alignUp s ≤ b.size) :
    (malloc osOk s h).1.isSome = true ∧ (malloc osOk s h).2.brk = h.brk := by
  have hne : h.blocks ≠ [] := by
    obtain ⟨b, hmem, _⟩ := hex
    exact List.ne_nil_of_mem hmem
  unfold malloc
  rw [if_neg hs, if_neg hne]
  have hfit := allocFit_isSome_of_exists (alignUp s) h.blocks hex
  unfold mallocCore
  rcases hf : allocFit (alignUp s) h.blocks with _ | ⟨p, bs'⟩
  · rw [hf] at hfit; simp at hfit
  · simp

/-- `alignUp m` stays below any multiple of 16 that dominates `m`. -/
theorem alignUp_le (m k : Nat) (hd : 16 ∣ k) (hle : m ≤ k)
    (hm : m + 15 < 2 ^ 64) : alignUp m ≤ k := by
  unfold alignUp ALGN
  rw [Nat.mod_eq_of_lt hm]
  obtain ⟨j, rfl⟩ := hd
  have h1 : (m + 15) / 16 ≤ (16 * j + 15) / 16 :=
    Nat.div_le_div_right (by omega)
  have h2 : (16 * j + 15) / 16 = j := by
    rw [Nat.mul_add_div (by omega)]
    norm_num
  omega

/-- C7: resize with a null pointer is exactly allocate (same result, same
    heap, memory untouched); resize of `ptr` to 0 is exactly release of
    `ptr` followed by returning null; and after the latter the released
    block's storage is again allocatable: a subsequent allocate of any
    aligned size up to the released block's size succeeds straight from
    the directory, without growing the arena. -/
theorem c7_resize_identities (osOk osOk2 : Bool) (s m ptr : Nat) (h : Heap)
    (mem : Mem) (pre post : List Block) (b : Block)
    (hbs : h.blocks = pre ++ b :: post)
    (hptr : ptr = b.addr + PH)
    (hpre : ∀ x ∈ pre, x.addr ≠ b.addr)
    (hb : b.is_free = false)
    (hm : 0 < m) (hmb : m ≤ b.size) (hdvd : 16 ∣ b.size)
    (hbound : m + 15 < 2 ^ 64) :
    realloc001 osOk none s h mem =
      ((malloc osOk s h).1, (malloc osOk s h).2, mem) ∧
    realloc001 osOk (some ptr) 0 h mem = (none, free (some ptr) h, mem) ∧
    (malloc osOk2 m (free (some ptr) h)).1.isSome = true ∧
    (malloc osOk2 m (free (some ptr) h)).2.brk = h.brk := by
  have halign : alignUp m ≤ b.size := alignUp_le m b.size hdvd hmb hbound
  have hfree_blocks : free (some ptr) h =
      { h with blocks := freeAt b.addr h.blocks } := by
    simp only [free, hptr, Nat.add_sub_cancel]
  have hfb := freeAt_free_block pre post b hpre hb
  rw [← hbs] at hfb
  obtain ⟨b', hmem, hf, hsz⟩ := hfb
  have hex : ∃ b' ∈ (free (some ptr) h).blocks,
      b'.is_free = true ∧ alignUp m ≤ b'.size := by
    rw [hfree_blocks]
    exact ⟨b', hmem, hf, Nat.le_trans halign hsz⟩
  have hreuse := malloc_reuse osOk2 m (free (some ptr) h)
    (Nat.pos_iff_ne_zero.mp hm) hex
  refine ⟨rfl, rfl, hreuse.1, ?_⟩
  rw [hreuse.2, hfree_blocks]

/-- Witness for C7: releasing the single in-use 16-byte block via
    resize(ptr, 0) and allocating 8 bytes again succeeds in place. -/
theorem c7_witness :
    (({ blocks := [{ addr := 0, size := 16, is_free := false }],
        brk := 65536 } : Heap).blocks =
       [] ++ { addr := 0, size := 16, is_free := false } :: [] ∧
     (32 : Nat) = Block.addr { addr := 0, size := 16, is_free := false } + PH ∧
     Block.is_free { addr := 0, size := 16, is_free := false } = false ∧
     (0 : Nat) < 8 ∧ (8 : Nat) ≤ 16 ∧ (16 : Nat) ∣ 16 ∧ 8 + 15 < 2 ^ 64) ∧
    (realloc001 true none 40
        { blocks := [{ addr := 0, size := 16, is_free := false }], brk := 65536 }
        (fun _ => 7) =
      ((malloc true 40
          { blocks := [{ addr := 0, size := 16, is_free := false }],
            brk := 65536 }).1,
       (malloc true 40
          { blocks := [{ addr := 0, size := 16, is_free := false }],
            brk := 65536 }).2, fun _ => 7) ∧
     realloc001 true (some 32) 0
        { blocks := [{ addr := 0, size := 16, is_free := false }], brk := 65536 }
        (fun _ => 7) =
      (none, free (some 32)
        { blocks := [{ addr := 0, size := 16, is_free := false }], brk := 65536 },
       fun _ => 7) ∧
     (malloc false 8 (free (some 32)
        { blocks := [{ addr := 0, size := 16, is_free := false }],
          brk := 65536 })).1.isSome = true ∧
     (malloc false 8 (free (some 32)
        { blocks := [{ addr := 0, size := 16, is_free := false }],
          brk := 65536 })).2.brk = 65536) :=
  ⟨⟨by decide, by decide, by decide, by decide, by decide, by decide, by decide⟩,
   c7_resize_identities true false 40 8 32
     { blocks := [{ addr := 0, size := 16, is_free := false }], brk := 65536 }
     (fun _ => 7) [] [] { addr := 0, size := 16, is_free := false }
     (by decide) (by decide) (by decide) (by decide) (by decide) (by decide)
     (by decide) (by decide)⟩

/-! ## C9: trace gating in the logging build -/

/-- C9 (code bug): in part_000 the trace guard is written
    `if(check_debug_mode)` without calling the function, so the condition
    is the (never-null) function address and the trace is emitted even
    when DEBUG_MALLOC is unset and the cached flag would be false. -/
theorem c9_trace_emitted_without_flag :
    mallocTraceEmitted false none = true ∧
    (check_debug_mode false none).1 = false := by decide

/-! ## C4: the bootstrap grant -/

/-- C4 counterexample: for the aligned request 65504 the first call
    obtains 65536 bytes from the OS (PADDED_HEADER_SIZE + 65504 does not
    exceed the 64 KiB chunk), but the claimed formula
    max(64 KiB, PADDED_HEADER_SIZE + s + ALGN) gives 65552. -/
theorem c4_counterexample :
    alignUp 65504 = 65504 ∧
    (malloc true 65504 Heap.empty).2.brk = 65536 ∧
    (malloc true 65504 Heap.empty).2.brk ≠
      max INITIAL_CHUNK (PADDED_HEADER_SIZE + 65504 + ALGN) := by decide

/-- C4 amended: on the first allocation with aligned payload need s, the
    amount obtained from the OS is 64 KiB when PADDED_HEADER_SIZE + s does
    not exceed 64 KiB and PADDED_HEADER_SIZE + s + ALGN otherwise; the
    grant is installed as a single free block of size grant minus padded
    header, the directory's only entry.  This agrees with the claimed
    max(64 KiB, PADDED_HEADER_SIZE + s + ALGN) except at
    PADDED_HEADER_SIZE + s = 64 KiB exactly. -/
theorem c4_bootstrap_grant (s : Nat) (hal : alignUp s = s) (hs : s ≠ 0) :
    bootstrap true s Heap.empty =
      some { blocks := [{ addr := 0, size := bootRequest s - PH, is_free := true }],
             brk := bootRequest s } ∧
    (malloc true s Heap.empty).2.brk = bootRequest s ∧
    (PH + s ≠ INITIAL_CHUNK →
      bootRequest s = max INITIAL_CHUNK (PH + s + ALGN)) := by
  have h16 : 16 ∣ s := by
    rw [← hal]
    unfold alignUp ALGN
    exact dvd_mul_left 16 _
  have hboot : bootstrap true s Heap.empty =
      some { blocks := [{ addr := 0, size := bootRequest s - PH, is_free := true }],
             brk := bootRequest s } := by
    simp [bootstrap, Heap.empty]
  refine ⟨hboot, ?_, ?_⟩
  · have hle : s ≤ bootRequest s - PH := by
      unfold bootRequest INITIAL_CHUNK PH PADDED_HEADER_SIZE HEADER_SIZE ALGN
      split <;> omega
    have hm : malloc true s Heap.empty =
        mallocCore true s
          { blocks := [{ addr := 0, size := bootRequest s - PH, is_free := true }],
            brk := bootRequest s } := by
      unfold malloc
      rw [if_neg hs, hal, hboot]
      rfl
    rw [hm]
    exact mallocCore_brk_of_fit true (allocFit_singleton_isSome rfl hle)
  · intro hne
    unfold bootRequest INITIAL_CHUNK PH PADDED_HEADER_SIZE HEADER_SIZE ALGN at *
    split <;> omega

/-- Witness for C4 at s = 16. -/
theorem c4_witness :
    alignUp 16 = 16 ∧ (16 : Nat) ≠ 0 ∧
    (bootstrap true 16 Heap.empty =
      some { blocks := [{ addr := 0, size := bootRequest 16 - PH, is_free := true }],
             brk := bootRequest 16 } ∧
    (malloc true 16 Heap.empty).2.brk = bootRequest 16 ∧
    (PH + 16 ≠ INITIAL_CHUNK →
      bootRequest 16 = max INITIAL_CHUNK (PH + 16 + ALGN))) :=
  ⟨by decide, by decide, c4_bootstrap_grant 16 (by decide) (by decide)⟩

/-! ## C1: the no-adjacent-free invariant -/

theorem headFree_nil : headFree [] = false := rfl

theorem headFree_cons (b : Block) (l : List Block) :
    headFree (b :: l) = b.is_free := rfl

theorem noAdjFree_cons (b : Block) (l : List Block) :
    noAdjFree (b :: l) = (!(b.is_free && headFree l) && noAdjFree l) := by
  cases l with
  | nil => simp [noAdjFree, headFree]
  | cons c rest => rfl

/-- The first-fit transformation preserves the invariant, and never turns
    an in-use head block into a free one. -/
theorem allocFit_noAdjFree (a : Nat) (bs : List Block) :
    ∀ (p : Nat) (bs' : List Block),
      allocFit a bs = some (p, bs') → noAdjFree bs = true →
      noAdjFree bs' = true ∧ (headFree bs' = true → headFree bs = true) := by
  induction bs with
  | nil => intro p bs' h; simp [allocFit] at h
  | cons b rest ih =>
    intro p bs' h hn
    rw [noAdjFree_cons] at hn
    simp only [Bool.and_eq_true, Bool.not_eq_true'] at hn
    obtain ⟨hpair, hrest⟩ := hn
    unfold allocFit at h
    by_cases hc : b.is_free = true ∧ a ≤ b.size
    · rw [if_pos hc] at h
      have hhf : headFree rest = false := by
        rcases Bool.and_eq_false_iff.mp hpair with h' | h'
        · rw [hc.1] at h'; simp at h'
        · exact h'
      by_cases hsplit : a + PH + ALGN ≤ b.size
      · rw [if_pos hsplit] at h
        simp only [Option.some.injEq, Prod.mk.injEq] at h
        obtain ⟨-, hbs'⟩ := h
        subst hbs'
        refine ⟨?_, ?_⟩
        · rw [noAdjFree_cons, noAdjFree_cons]
          simp [headFree_cons, hhf, hrest]
        · intro hcontra; simp [headFree_cons] at hcontra
      · rw [if_neg hsplit] at h
        simp only [Option.some.injEq, Prod.mk.injEq] at h
        obtain ⟨-, hbs'⟩ := h
        subst hbs'
        refine ⟨?_, ?_⟩
        · rw [noAdjFree_cons]
          simp [headFree_cons, hrest]
        · intro hcontra; simp [headFree_cons] at hcontra
    · rw [if_neg hc] at h
      rcases hfit : allocFit a rest with _ | ⟨q, rest'⟩
      · rw [hfit] at h; simp at h
      · rw [hfit] at h
        simp only [Option.some.injEq, Prod.mk.injEq] at h
        obtain ⟨-, hbs'⟩ := h
        subst hbs'
        obtain ⟨hn', himp⟩ := ih q rest' hfit hrest
        refine ⟨?_, fun hh => hh⟩
        rw [noAdjFree_cons]
        rcases hbf : b.is_free with _ | _
        · simp [hn']
        · have h1 : headFree rest = false := by
            rcases Bool.and_eq_false_iff.mp hpair with h' | h'
            · rw [hbf] at h'; simp at h'
            · exact h'
          have h2 : headFree rest' = false := by
            rcases hh : headFree rest' with _ | _
            · rfl
            · rw [himp hh] at h1; exact h1.symm ▸ rfl
          simp [h2, hn']

theorem headFree_append_inuse (l : List Block) (b : Block)
    (hb : b.is_free = false) : headFree (l ++ [b]) = headFree l := by
  cases l <;> simp [headFree, hb]

theorem noAdjFree_append_inuse (l : List Block) (b : Block)
    (hb : b.is_free = false) (hl : noAdjFree l = true) :
    noAdjFree (l ++ [b]) = true := by
  induction l with
  | nil => simp [noAdjFree]
  | cons x l ih =>
    rw [noAdjFree_cons] at hl
    simp only [Bool.and_eq_true, Bool.not_eq_true'] at hl
    rw [List.cons_append, noAdjFree_cons, headFree_append_inuse l b hb]
    simp only [Bool.and_eq_true, Bool.not_eq_true']
    exact ⟨hl.1, ih hl.2⟩

/-- Forward coalescing stops at an in-use block: the remaining tail starts
    in-use and is itself free of adjacent free pairs. -/
theorem mergeForward_tail (l : List Block) (b : Block)
    (hl : noAdjFree l = true) :
    headFree (mergeForward b l).2 = false ∧
    noAdjFree (mergeForward b l).2 = true := by
  induction l generalizing b with
  | nil => exact ⟨rfl, rfl⟩
  | cons n rest ih =>
    rw [noAdjFree_cons] at hl
    simp only [Bool.and_eq_true, Bool.not_eq_true'] at hl
    by_cases hn : n.is_free = true
    · simp only [mergeForward, if_pos hn]
      exact ih { b with size := b.size + PH + n.size } hl.2
    · simp only [mergeForward, if_neg hn]
      refine ⟨?_, ?_⟩
      · show n.is_free = false
        exact Bool.not_eq_true _ ▸ hn
      · rw [noAdjFree_cons]
        simp only [Bool.and_eq_true, Bool.not_eq_true']
        exact hl

/-- Step equation: releasing an already-free head block is a no-op. -/
theorem freeAt_head_free (b : Block) (l : List Block)
    (hb : b.is_free = true) : freeAt b.addr (b :: l) = b :: l := by
  unfold freeAt
  rw [if_pos rfl, if_pos hb]

/-- The scan keeps an in-use head in-use when the head is not the target. -/
theorem freeAt_headFree (hdr : Nat) (l : List Block)
    (hl : headFree l = false)
    (ha : ∀ c, l.head? = some c → c.addr ≠ hdr) :
    headFree (freeAt hdr l) = false := by
  cases l with
  | nil => rfl
  | cons b rest =>
    have hb : b.addr ≠ hdr := ha b rfl
    have hbf : b.is_free = false := hl
    cases rest with
    | nil => rw [freeAt_single_skip hdr b hb]; exact hl
    | cons c rest2 =>
      by_cases hc : c.addr = hdr
      · subst hc
        by_cases hcf : c.is_free = true
        · rw [freeAt_snd_free b c rest2 hb hcf]; exact hl
        · have hcf' : c.is_free = false := Bool.not_eq_true _ ▸ hcf
          rw [freeAt_snd_inuse b c rest2 hb hcf', if_neg (by rw [hbf]; exact Bool.false_ne_true)]
          exact hbf
      · rw [freeAt_cons_skip hdr b c rest2 hb hc]; exact hbf

/-- The release path preserves the no-adjacent-free invariant. -/
theorem freeAt_noAdjFree (hdr : Nat) (l : List Block)
    (hl : noAdjFree l = true) : noAdjFree (freeAt hdr l) = true := by
  induction l with
  | nil => rfl
  | cons b rest ih =>
    by_cases hb : b.addr = hdr
    · subst hb
      by_cases hbf : b.is_free = true
      · rw [freeAt_head_free b rest hbf]; exact hl
      · have hbf' : b.is_free = false := Bool.not_eq_true _ ▸ hbf
        rw [freeAt_head_inuse b rest hbf']
        rw [noAdjFree_cons] at hl
        simp only [Bool.and_eq_true, Bool.not_eq_true'] at hl
        obtain ⟨hh, hn⟩ :=
          mergeForward_tail rest { b with is_free := true } hl.2
        rw [noAdjFree_cons]
        simp [hh, hn]
    · cases rest with
      | nil => rw [freeAt_single_skip hdr b hb]; exact hl
      | cons c rest2 =>
        rw [noAdjFree_cons] at hl
        simp only [Bool.and_eq_true, Bool.not_eq_true'] at hl
        obtain ⟨hpair, hrest⟩ := hl
        by_cases hc : c.addr = hdr
        · subst hc
          by_cases hcf : c.is_free = true
          · rw [freeAt_snd_free b c rest2 hb hcf]
            rw [noAdjFree_cons]
            simp only [Bool.and_eq_true, Bool.not_eq_true']
            exact ⟨hpair, hrest⟩
          · have hcf' : c.is_free = false := Bool.not_eq_true _ ▸ hcf
            rw [freeAt_snd_inuse b c rest2 hb hcf']
            rw [noAdjFree_cons] at hrest
            simp only [Bool.and_eq_true, Bool.not_eq_true'] at hrest
            obtain ⟨hh, hn⟩ :=
              mergeForward_tail rest2 { c with is_free := true } hrest.2
            by_cases hbf : b.is_free = true
            · rw [if_pos hbf, noAdjFree_cons]
              simp [hh, hn]
            · rw [if_neg hbf, noAdjFree_cons, noAdjFree_cons]
              simp [headFree_cons, hh, hn, Bool.not_eq_true _ ▸ hbf]
        · rw [freeAt_cons_skip hdr b c rest2 hb hc]
          rw [noAdjFree_cons]
          simp only [Bool.and_eq_true, Bool.not_eq_true']
          refine ⟨?_, ih hrest⟩
          rcases hbf : b.is_free with _ | _
          · simp
          · have h1 : headFree (c :: rest2) = false := by
              rcases Bool.and_eq_false_iff.mp hpair with h' | h'
              · rw [hbf] at h'; simp at h'
              · exact h'
            have := freeAt_headFree hdr (c :: rest2) h1
              (fun d hd => by
                injection hd with hd'
                rw [← hd']; exact hc)
            simp [this]

theorem mallocCore_noAdjFree (osOk : Bool) (a : Nat) (h : Heap)
    (hn : noAdjFree h.blocks = true) :
    noAdjFree (mallocCore osOk a h).2.blocks = true := by
  unfold mallocCore
  rcases hf : allocFit a h.blocks with _ | ⟨p, bs'⟩
  · cases osOk with
    | false => simpa using hn
    | true =>
      simp only [if_pos rfl]
      exact noAdjFree_append_inuse h.blocks _ rfl hn
  · simpa using (allocFit_noAdjFree a h.blocks p bs' hf hn).1

theorem malloc_noAdjFree (osOk : Bool) (s : Nat) (h : Heap)
    (hn : noAdjFree h.blocks = true) :
    noAdjFree (malloc osOk s h).2.blocks = true := by
  unfold malloc
  by_cases hs : s = 0
  · rw [if_pos hs]; exact hn
  rw [if_neg hs]
  by_cases hb : h.blocks = []
  · rw [if_pos hb]
    cases osOk with
    | false => simpa [bootstrap] using hn
    | true =>
      simp only [bootstrap, if_pos rfl]
      exact mallocCore_noAdjFree true (alignUp s) _ rfl
  · rw [if_neg hb]
    exact mallocCore_noAdjFree osOk (alignUp s) h hn

theorem free_noAdjFree (p : Option Nat) (h : Heap)
    (hn : noAdjFree h.blocks = true) :
    noAdjFree (free p h).blocks = true := by
  cases p with
  | none => exact hn
  | some ptr => exact freeAt_noAdjFree (ptr - PH) h.blocks hn

theorem calloc_noAdjFree (osOk : Bool) (n s : Nat) (h : Heap) (mem : Mem)
    (hn : noAdjFree h.blocks = true) :
    noAdjFree (calloc osOk n s h mem).2.1.blocks = true := by
  unfold calloc
  by_cases hov : 0 < n ∧ 0 < s ∧ SIZE_MAX / s < n
  · rw [if_pos hov]; exact hn
  · rw [if_neg hov]
    have hmal := malloc_noAdjFree osOk (n * s % (SIZE_MAX + 1)) h hn
    rcases hm : malloc osOk (n * s % (SIZE_MAX + 1)) h with ⟨r, h2⟩
    rw [hm] at hmal
    cases r <;> simpa using hmal

theorem step_noAdjFree (o : Op) (h : Heap) (hn : noAdjFree h.blocks = true) :
    noAdjFree (step o h).blocks = true := by
  cases o with
  | alloc osOk s => exact malloc_noAdjFree osOk s h hn
  | release p => exact free_noAdjFree p h hn
  | zalloc osOk n s => exact calloc_noAdjFree osOk n s h (fun _ => 0) hn

theorem run_noAdjFree (ops : List Op) (h : Heap)
    (hn : noAdjFree h.blocks = true) :
    noAdjFree (run ops h).blocks = true := by
  induction ops generalizing h with
  | nil => exact hn
  | cons o rest ih => exact ih (step o h) (step_noAdjFree o h hn)

/-- C1 amended: along every sequence of allocate, release and
    zero-allocate operations from the empty directory, no two adjacent
    free blocks ever coexist (release-path coalescing is eager and total,
    first-fit splitting always splits in front of an in-use or absent
    successor).  Resize is excluded: by `c1_counterexample` its shrink
    path can split a free block off directly in front of an already-free
    successor. -/
theorem c1_no_adjacent_free (ops : List Op) :
    noAdjFree (run ops Heap.empty).blocks = true :=
  run_noAdjFree ops Heap.empty rfl

/-- C1 counterexample: after allocate(100), allocate(16), release of the
    second block, a resize of the first block down to 16 bytes splits off
    a free block directly in front of the already-free successor, leaving
    two adjacent free blocks in the directory. -/
theorem c1_counterexample :
    noAdjFree ((realloc001 true (some 32) 16
        (run [Op.alloc true 100, Op.alloc true 16, Op.release (some 176)]
          Heap.empty)
        (fun _ => 0)).2.1.blocks) = false := by decide

/-! ## C3: releasing two adjacent blocks -/

/-- C3 counterexample: in the directory reached by allocate(16),
    allocate(16), the blocks at 0 and 48 are in-use and address-adjacent;
    releasing both (first, then second) coalesces them with the free tail
    of the arena, leaving a single free block of size 65504, not
    16 + 16 + PADDED_HEADER_SIZE = 64 as the claim states. -/
theorem c3_counterexample :
    (free (some 80) (free (some 32)
        (run [Op.alloc true 16, Op.alloc true 16] Heap.empty))).blocks =
      [{ addr := 0, size := 65504, is_free := true }] ∧
    (65504 : Nat) ≠ 16 + 16 + PH := by decide

theorem mergeForward_stop (b : Block) (l : List Block)
    (hl : headFree l = false) : mergeForward b l = (b, l) := by
  cases l with
  | nil => rfl
  | cons n rest =>
    have hn : n.is_free = false := hl
    unfold mergeForward
    rw [if_neg (by rw [hn]; exact Bool.false_ne_true)]

/-- The release scan walks unchanged through a prefix of in-use blocks
    that does not contain the target. -/
theorem freeAt_append_inuse (hdr : Nat) (pre l : List Block)
    (hpre : ∀ x ∈ pre, x.addr ≠ hdr ∧ x.is_free = false) :
    freeAt hdr (pre ++ l) = pre ++ freeAt hdr l := by
  induction pre with
  | nil => simp
  | cons x pre ih =>
    obtain ⟨hx, hxf⟩ := hpre x (List.mem_cons_self x pre)
    have ih' := ih (fun y hy => hpre y (List.mem_cons_of_mem x hy))
    cases hp : pre with
    | nil =>
      subst hp
      simp only [List.nil_append, List.cons_append]
      cases l with
      | nil => rw [freeAt_single_skip hdr x hx]; rfl
      | cons c l2 =>
        by_cases hc : c.addr = hdr
        · subst hc
          by_cases hcf : c.is_free = true
          · rw [freeAt_snd_free x c l2 hx hcf, freeAt_head_free c l2 hcf]
          · have hcf' : c.is_free = false := Bool.not_eq_true _ ▸ hcf
            rw [freeAt_snd_inuse x c l2 hx hcf',
              if_neg (by rw [hxf]; exact Bool.false_ne_true),
              freeAt_head_inuse c l2 hcf']
        · rw [freeAt_cons_skip hdr x c l2 hx hc]
    | cons y pre2 =>
      subst hp
      have hy := (hpre y (List.mem_cons_of_mem x (List.mem_cons_self y pre2))).1
      rw [List.cons_append, List.cons_append,
        freeAt_cons_skip hdr x y (pre2 ++ l) hx hy, ← List.cons_append, ih']
      simp

theorem countFree_append (l1 l2 : List Block) :
    countFree (l1 ++ l2) = countFree l1 + countFree l2 := by
  simp [countFree, List.filter_append]

theorem countFree_zero (l : List Block) (hl : ∀ x ∈ l, x.is_free = false) :
    countFree l = 0 := by
  induction l with
  | nil => rfl
  | cons x l ih =>
    have hx := hl x (List.mem_cons_self x l)
    have ih' := ih (fun y hy => hl y (List.mem_cons_of_mem x hy))
    simp only [countFree, List.filter_cons, hx] at ih' ⊢
    simpa using ih'

theorem countFree_cons_free (m : Block) (l : List Block)
    (hm : m.is_free = true) : countFree (m :: l) = 1 + countFree l := by
  simp [countFree, List.filter_cons, hm]
  omega

/-- C3 amended: for two in-use address-adjacent blocks in a directory
    whose remaining blocks are all in-use (with header addresses distinct
    from the pair's), releasing both in either order replaces the pair by
    one free block of size s1 + s2 + PADDED_HEADER_SIZE, leaves every
    other block unchanged, and that block is the only free one in the
    directory.  (When some other block is free adjacent to the pair,
    coalescing also absorbs it, so the size claim of C3 as stated fails —
    see the counterexample.) -/
theorem c3_adjacent_release (h : Heap) (pre post : List Block)
    (b1 b2 : Block)
    (hbs : h.blocks = pre ++ b1 :: b2 :: post)
    (hb1 : b1.is_free = false) (hb2 : b2.is_free = false)
    (hadj : b2.addr = b1.addr + PH + b1.size)
    (hpre : ∀ x ∈ pre,
      (x.addr ≠ b1.addr ∧ x.addr ≠ b2.addr) ∧ x.is_free = false)
    (hpost : ∀ x ∈ post, x.is_free = false) :
    free (some (b2.addr + PH)) (free (some (b1.addr + PH)) h) =
      { h with blocks := pre ++
          { addr := b1.addr, size := b1.size + PH + b2.size,
            is_free := true } :: post } ∧
    free (some (b1.addr + PH)) (free (some (b2.addr + PH)) h) =
      { h with blocks := pre ++
          { addr := b1.addr, size := b1.size + PH + b2.size,
            is_free := true } :: post } ∧
    countFree (pre ++
      { addr := b1.addr, size := b1.size + PH + b2.size,
        is_free := true } :: post) = 1 := by
  have hPH : 0 < PH := by decide
  have hne : b1.addr ≠ b2.addr := by omega
  have hpostf : headFree post = false := by
    cases post with
    | nil => rfl
    | cons q post2 => exact hpost q (List.mem_cons_self q post2)
  have hpre1 : ∀ x ∈ pre, x.addr ≠ b1.addr ∧ x.is_free = false :=
    fun x hx => ⟨(hpre x hx).1.1, (hpre x hx).2⟩
  have hpre2 : ∀ x ∈ pre, x.addr ≠ b2.addr ∧ x.is_free = false :=
    fun x hx => ⟨(hpre x hx).1.2, (hpre x hx).2⟩
  have hstop := mergeForward_stop { b2 with is_free := true } post hpostf
  refine ⟨?_, ?_, ?_⟩
  · -- release b1 first, then b2
    have h1 : free (some (b1.addr + PH)) h =
        { h with blocks := pre ++ { b1 with is_free := true } :: b2 :: post } := by
      simp only [free, Nat.add_sub_cancel, hbs]
      rw [freeAt_append_inuse b1.addr pre (b1 :: b2 :: post) hpre1,
        freeAt_head_inuse b1 (b2 :: post) hb1,
        mergeForward_stop { b1 with is_free := true } (b2 :: post)
          (show b2.is_free = false from hb2)]
    rw [h1]
    simp only [free, Nat.add_sub_cancel]
    rw [freeAt_append_inuse b2.addr pre ({ b1 with is_free := true } :: b2 :: post)
        hpre2,
      freeAt_snd_inuse { b1 with is_free := true } b2 post
        (show b1.addr ≠ b2.addr from hne) hb2,
      if_pos rfl, hstop]
  · -- release b2 first, then b1
    have h1 : free (some (b2.addr + PH)) h =
        { h with blocks := pre ++ b1 :: { b2 with is_free := true } :: post } := by
      simp only [free, Nat.add_sub_cancel, hbs]
      rw [freeAt_append_inuse b2.addr pre (b1 :: b2 :: post) hpre2,
        freeAt_snd_inuse b1 b2 post hne hb2,
        if_neg (by rw [hb1]; exact Bool.false_ne_true), hstop]
    rw [h1]
    simp only [free, Nat.add_sub_cancel]
    rw [freeAt_append_inuse b1.addr pre
        (b1 :: { b2 with is_free := true } :: post) hpre1,
      freeAt_head_inuse b1 ({ b2 with is_free := true } :: post) hb1]
    have habsorb : mergeForward { b1 with is_free := true }
        ({ b2 with is_free := true } :: post) =
        ({ addr := b1.addr, size := b1.size + PH + b2.size, is_free := true },
         post) := by
      unfold mergeForward
      rw [if_pos rfl]
      exact mergeForward_stop _ post hpostf
    rw [habsorb]
  · rw [countFree_append, countFree_zero pre (fun x hx => (hpre x hx).2),
      countFree_cons_free _ post rfl, countFree_zero post hpost]

/-- Witness for C3 on the two-block directory [(0,16,in-use),(48,16,in-use)]. -/
theorem c3_adjacent_release_witness :
    (({ blocks := [{ addr := 0, size := 16, is_free := false },
                   { addr := 48, size := 16, is_free := false }],
        brk := 65536 } : Heap).blocks =
       [] ++ { addr := 0, size := 16, is_free := false } ::
         { addr := 48, size := 16, is_free := false } :: [] ∧
     Block.is_free { addr := 0, size := 16, is_free := false } = false ∧
     Block.is_free { addr := 48, size := 16, is_free := false } = false ∧
     Block.addr { addr := 48, size := 16, is_free := false } =
       Block.addr { addr := 0, size := 16, is_free := false } + PH +
         Block.size { addr := 0, size := 16, is_free := false }) ∧
    (free (some 80) (free (some 32)
        { blocks := [{ addr := 0, size := 16, is_free := false },
                     { addr := 48, size := 16, is_free := false }],
          brk := 65536 }) =
      { blocks := [{ addr := 0, size := 64, is_free := true }],
        brk := 65536 } ∧
     free (some 32) (free (some 80)
        { blocks := [{ addr := 0, size := 16, is_free := false },
                     { addr := 48, size := 16, is_free := false }],
          brk := 65536 }) =
      { blocks := [{ addr := 0, size := 64, is_free := true }],
        brk := 65536 } ∧
     countFree [{ addr := 0, size := 64, is_free := true }] = 1) :=
  ⟨⟨by decide, by decide, by decide, by decide⟩, by
    have h := c3_adjacent_release
      { blocks := [{ addr := 0, size := 16, is_free := false },
                   { addr := 48, size := 16, is_free := false }],
        brk := 65536 }
      [] [] { addr := 0, size := 16, is_free := false }
      { addr := 48, size := 16, is_free := false }
      (by decide) (by decide) (by decide) (by decide)
      (by intro x hx; cases hx) (by intro x hx; cases hx)
    obtain ⟨ha, hb, hc⟩ := h
    refine ⟨?_, ?_, ?_⟩
    · rw [show (32 : Nat) = 0 + PH from by decide] at *
      rw [show (80 : Nat) = 48 + PH from by decide] at *
      rw [ha]; decide
    · rw [show (32 : Nat) = 0 + PH from by decide] at *
      rw [show (80 : Nat) = 48 + PH from by decide] at *
      rw [hb]; decide
    · decide⟩

/-! ## C10: the two realloc implementations -/

/-- C10 counterexample: growing the 16-byte block at payload 32 to 48
    bytes goes through the in-place-expansion path; part_000 splits the
    merged excess off as a free block, part_001 discards it, so the two
    implementations leave different directories. -/
theorem c10_counterexample :
    (realloc000 true (some 32) 48 (run [Op.alloc true 16] Heap.empty)
        (fun _ => 0)).2.1.blocks ≠
    (realloc001 true (some 32) 48 (run [Op.alloc true 16] Heap.empty)
        (fun _ => 0)).2.1.blocks := by decide

/-- Off the split-worthy excess, part_000's expansion transformer agrees
    with part_001's. -/
theorem mergeNext_eq (hdr a : Nat) (bs : List Block) (cur nxt : Block)
    (hfind : findCur hdr bs = some (cur, some nxt))
    (hlt : cur.size + PH + nxt.size < a + PH + ALGN) :
    mergeNextSplit hdr a bs = mergeNextNoSplit hdr a bs := by
  induction bs with
  | nil => simp [findCur] at hfind
  | cons b rest ih =>
    cases rest with
    | nil =>
      unfold findCur at hfind
      by_cases hb : b.addr = hdr
      · rw [if_pos hb] at hfind; simp at hfind
      · rw [if_neg hb] at hfind; simp at hfind
    | cons c rest2 =>
      by_cases hb : b.addr = hdr
      · unfold findCur at hfind
        rw [if_pos hb] at hfind
        simp only [Option.some.injEq, Prod.mk.injEq] at hfind
        obtain ⟨hcur, hnxt⟩ := hfind
        subst hcur
        subst hnxt
        unfold mergeNextSplit mergeNextNoSplit
        rw [if_pos hb, if_pos hb, if_neg (Nat.not_le.mpr hlt)]
      · unfold findCur at hfind
        rw [if_neg hb] at hfind
        unfold mergeNextSplit mergeNextNoSplit
        rw [if_neg hb, if_neg hb, ih hfind]

/-- C10 amended: the two resize implementations return the same pointer
    and leave the same directory and memory on every input except the
    in-place-expansion path with a split-worthy excess (where part_000
    splits off a free block and part_001 discards the excess — see the
    counterexample). -/
theorem c10_realloc_equiv (osOk : Bool) (p : Option Nat) (s : Nat) (h : Heap)
    (mem : Mem) (hnp : expandSplitPath p s h = false) :
    realloc000 osOk p s h mem = realloc001 osOk p s h mem := by
  cases p with
  | none => rfl
  | some ptr =>
    by_cases hs : s = 0
    · simp only [realloc000, realloc001, if_pos hs]
    · simp only [realloc000, realloc001, if_neg hs]
      rcases hf : findCur (ptr - PH) h.blocks with _ | ⟨cur, nxtOpt⟩
      · simp only [hf]
      · simp only [hf]
        by_cases hcur : alignUp s ≤ cur.size
        · rw [if_pos hcur, if_pos hcur]
        · rw [if_neg hcur, if_neg hcur]
          cases nxtOpt with
          | none => rfl
          | some nxt =>
            simp only []
            by_cases hexp : nxt.is_free = true ∧
                alignUp s ≤ cur.size + PH + nxt.size
            · rw [if_pos hexp, if_pos hexp]
              have hlt : cur.size + PH + nxt.size < alignUp s + PH + ALGN := by
                unfold expandSplitPath at hnp
                simp only [] at hnp
                rw [if_neg hs] at hnp
                simp only [hf] at hnp
                simp only [Bool.and_eq_false_iff, decide_eq_false_iff_not,
                  Nat.not_lt, Nat.not_le] at hnp
                rcases hnp with ((h1 | h2) | h3) | h4
                · exact absurd h1 (Nat.not_le.mpr (Nat.lt_of_not_le hcur))
                · rw [hexp.1] at h2; simp at h2
                · exact absurd hexp.2 (Nat.not_le.mpr h3)
                · exact h4
              rw [mergeNext_eq (ptr - PH) (alignUp s) h.blocks cur nxt hf hlt]
            · rw [if_neg hexp, if_neg hexp]

/-- Witness for C10: shrinking the single 16-byte in-use block to 8 bytes
    is off the expansion path, and both implementations agree there. -/
theorem c10_realloc_equiv_witness :
    expandSplitPath (some 32) 8
        { blocks := [{ addr := 0, size := 16, is_free := false }],
          brk := 65536 } = false ∧
    realloc000 true (some 32) 8
        { blocks := [{ addr := 0, size := 16, is_free := false }],
          brk := 65536 } (fun _ => 0) =
      realloc001 true (some 32) 8
        { blocks := [{ addr := 0, size := 16, is_free := false }],
          brk := 65536 } (fun _ => 0) :=
  ⟨by decide,
   c10_realloc_equiv true (some 32) 8
     { blocks := [{ addr := 0, size := 16, is_free := false }], brk := 65536 }
     (fun _ => 0) (by decide)⟩

end CSC453
